import Mathlib

/-!
Verification of the diagnostic "why" command (`src/cli/commands/why.js`)
against the repository's natural-language specification.

The embedding below translates the pure logic of `why.js` into Lean:

* `cleanQueryPure` models the three string rewrites of `cleanQuery`
  (the filesystem branch for absolute existing paths is I/O and is out of
  scope; all claims about `cleanQuery` concern the pure transformation).
* `Request` models the resolver's request objects: a pattern plus an
  optional back-reference to the parent request (`parentRequest`).
* `Resolver.getResolvedPattern` / `Resolver.getStrictResolvedPattern`
  model the resolver accessors; the strict one fails with
  `WhyError.unresolvedPattern` when the pattern is absent.
* `HoistManifest` models one entry of the flat hoisted tree:
  `key`, `previousKeys`, `originalKey` and the package (whose
  `_reference` carries `patterns` and `requests`).
* `run` models the body of `why.js`'s `run` after the query has been
  cleaned: the sequence of reporter events it emits, or the error it
  throws (a failed `invariant` or a strict-resolution miss).
-/

/-- One edge of the dependency graph: a pattern requested by an optional
parent request, mirroring the `Request` objects consumed by `why.js`. -/
inductive Request : Type where
  | mk (pattern : String) (parentRequest : Option Request)

/-- The pattern requested by this request. -/
def Request.pattern : Request → String
  | .mk p _ => p

/-- The optional parent request (`request.parentRequest`). -/
def Request.parentRequest : Request → Option Request
  | .mk _ par => par

/-- The patterns along the chain from this request (leaf) back to the
root, including this request's own pattern. -/
def Request.chainPatterns : Request → List String
  | .mk p none => [p]
  | .mk p (some parent) => p :: parent.chainPatterns

/-- The number of requests on the chain from this request to the root. -/
def Request.chainLength (r : Request) : Nat :=
  r.chainPatterns.length

/-- A package reference: the distinct patterns that resolve to the
package and the requests that led to it (`pkg._reference`). -/
structure PackageReference : Type where
  patterns : List String
  requests : List Request

/-- The package data `why.js` reads: its name and its optional
reference. -/
structure Manifest : Type where
  name : String
  _reference : Option PackageReference

/-- The resolver's pattern table, in iteration order: pattern to
resolved package. -/
def Resolver : Type := List (String × Manifest)

/-- Errors thrown by the modelled fragment of `run`: a strict
resolution miss, or the failed `invariant(matchRef, 'expected
reference')`. -/
inductive WhyError : Type where
  | unresolvedPattern
  | invariantViolation
deriving DecidableEq

/-- `resolver.getResolvedPattern(pattern)`: optional lookup. -/
def Resolver.getResolvedPattern (res : Resolver) (pattern : String) : Option Manifest :=
  (res.find? (fun pr => pr.1 = pattern)).map (fun pr => pr.2)

/-- `resolver.getStrictResolvedPattern(pattern)`: like
`getResolvedPattern` but a miss is an error. -/
def Resolver.getStrictResolvedPattern (res : Resolver) (pattern : String) :
    Except WhyError Manifest :=
  match res.getResolvedPattern pattern with
  | some m => .ok m
  | none => .error .unresolvedPattern

/-- One entry of the flat hoisted tree (`HoistManifest`). -/
structure HoistManifest : Type where
  key : String
  previousKeys : List String
  originalKey : String
  pkg : Manifest

/-- The match-search loop of `run` (lines 65-71): walk the hoisted tree
in iteration order and take the first entry whose current `key` equals
the query or whose `previousKeys` contain the query. -/
def findMatch (query : String) : List HoistManifest → Option HoistManifest
  | [] => none
  | info :: rest =>
    if info.key = query ∨ query ∈ info.previousKeys then some info
    else findMatch query rest

example :
    findMatch "a" [⟨"b", ["a"], "b", ⟨"p", none⟩⟩, ⟨"a", [], "a", ⟨"q", none⟩⟩] =
      some ⟨"b", ["a"], "b", ⟨"p", none⟩⟩ := rfl

/-- A structured provenance reason, one per `reasons.push` in `run`:
the reporter's final string formatting (including joining a dependency
chain with `"#"`) is out of scope, so each reason keeps its data. -/
inductive Reason : Type where
  | dependedOn (chain : List String)
  | specified (rootType : String)
  | hoistedFrom (pattern : String)
deriving DecidableEq

/-- One reporter event emitted by `run`, in emission order. -/
inductive Output : Type where
  | step (n total : Nat)
  | infoHoistedTo (key : String)
  | infoReason (r : Reason)
  | infoReasons
  | listReasons (rs : List Reason)
  | errorUnknownMatch
  | errorWhoKnows
  | infoDiskSizeWithout (s : String)
  | infoDiskSizeUnique (s : String)
  | infoDiskSizeTransitive (s : String)
  | infoSharedDependencies (n : Nat)
deriving DecidableEq

/-- The do-while chain walk of `run` (lines 100-103): starting from the
parent request, push the strictly resolved name of each request's
pattern and move to its parent; the resulting list is leaf-to-root
(`run` then reverses it). A strict-resolution miss aborts the walk. -/
def walkChain (res : Resolver) : Request → Except WhyError (List String)
  | .mk p none => do
    let pkg ← res.getStrictResolvedPattern p
    pure [pkg.name]
  | .mk p (some parent) => do
    let pkg ← res.getStrictResolvedPattern p
    let rest ← walkChain res parent
    pure (pkg.name :: rest)

/-- The "dependency of these modules" loop of `run` (lines 87-106):
requests without a parent, or whose parent's pattern has no resolved
package, are skipped; otherwise the reversed chain of names becomes a
`dependedOn` reason. An error thrown by the strict walk propagates. -/
def dependedOnReasons (res : Resolver) : List Request → Except WhyError (List Reason)
  | [] => .ok []
  | request :: rest =>
    match request.parentRequest with
    | none => dependedOnReasons res rest
    | some parentRequest =>
      match res.getResolvedPattern parentRequest.pattern with
      | none => dependedOnReasons res rest
      | some _ => do
        let chain ← walkChain res parentRequest
        let tail ← dependedOnReasons res rest
        pure (.dependedOn chain.reverse :: tail)

/-- `install.rootPatternsToOrigin[pattern]`: lookup in the root-pattern
origin map (iteration-ordered association list). -/
def lookupOrigin (origin : List (String × String)) (pattern : String) : Option String :=
  (origin.find? (fun pr => pr.1 = pattern)).map (fun pr => pr.2)

/-- The "exists in manifest" loop of `run` (lines 108-115): for each of
the match's patterns, look up its origin classification; the JS
truthiness test `if (rootType)` skips both a missing entry and an empty
classification string. -/
def specifiedReasons (origin : List (String × String)) : List String → List Reason
  | [] => []
  | pattern :: rest =>
    match lookupOrigin origin pattern with
    | some rootType =>
      if rootType ≠ "" then .specified rootType :: specifiedReasons origin rest
      else specifiedReasons origin rest
    | none => specifiedReasons origin rest

/-- The "hoisted from these modules" loop of `run` (lines 122-127):
each entry of `previousKeys` different from the current key becomes a
`hoistedFrom` reason. -/
def hoistedFromList (key : String) : List String → List Reason
  | [] => []
  | pattern :: rest =>
    if pattern ≠ key then .hoistedFrom pattern :: hoistedFromList key rest
    else hoistedFromList key rest

/-- All `hoistedFrom` reasons of a match. -/
def hoistedFromReasons (m : HoistManifest) : List Reason :=
  hoistedFromList m.key m.previousKeys

/-- The final reasons report of `run` (lines 129-137): one reason is
printed inline, several are printed as a list, none is the "who knows"
error. -/
def reasonsOutput : List Reason → List Output
  | [] => [.errorWhoKnows]
  | [r] => [.infoReason r]
  | r1 :: r2 :: rest => [.infoReasons, .listReasons (r1 :: r2 :: rest)]

/-- The four disk-usage statistics printed at the end of `run`
(lines 139-149), with the constants hard-coded in the source. -/
def statsOutput : List Output :=
  [.infoDiskSizeWithout "0MB", .infoDiskSizeUnique "0MB",
   .infoDiskSizeTransitive "0MB", .infoSharedDependencies 0]

/-- The body of `run` after `cleanQuery`, as the sequence of reporter
events it emits (or the error it throws): the three progress steps, the
first-match search, the `invariant(matchRef)` check, reason gathering
(dependency chains, manifest origins, previous keys), the
`query === originalKey` relocation notice, the reasons report, and the
constant statistics. -/
def run (res : Resolver) (rootPatternsToOrigin : List (String × String))
    (hoisted : List HoistManifest) (query : String) : Except WhyError (List Output) :=
  let pre : List Output := [.step 1 3, .step 2 3, .step 3 3]
  match findMatch query hoisted with
  | none => .ok (pre ++ [.errorUnknownMatch])
  | some m =>
    match m.pkg._reference with
    | none => .error .invariantViolation
    | some matchRef =>
      match dependedOnReasons res matchRef.requests with
      | .error e => .error e
      | .ok depReasons =>
        let reasons := depReasons ++ specifiedReasons rootPatternsToOrigin matchRef.patterns
          ++ hoistedFromReasons m
        let hoistedToOut : List Output :=
          if query = m.originalKey then [.infoHoistedTo m.key] else []
        .ok (pre ++ hoistedToOut ++ reasonsOutput reasons ++ statsOutput)

/-- Observer: the reasons contained in an emitted event sequence
(whether reported inline or as a list). -/
def outputReasons : List Output → List Reason
  | [] => []
  | .infoReason r :: rest => r :: outputReasons rest
  | .listReasons rs :: rest => rs ++ outputReasons rest
  | _ :: rest => outputReasons rest

example :
    run [] [] [⟨"foo", [], "foo", ⟨"foo", some ⟨[], []⟩⟩⟩] "foo" =
      .ok [.step 1 3, .step 2 3, .step 3 3, .infoHoistedTo "foo", .errorWhoKnows,
        .infoDiskSizeWithout "0MB", .infoDiskSizeUnique "0MB",
        .infoDiskSizeTransitive "0MB", .infoSharedDependencies 0] := rfl

/-- A path separator character, the JS character class `[\\/]`. -/
def isSep (c : Char) : Bool :=
  c == '/' || c == '\\'

/-- A JS line terminator, which `.` in a regular expression without the
`s` flag never matches and which `$` without `m` does not precede. -/
def isLineTerminator (c : Char) : Bool :=
  c == '\n' || c == '\r' || c == '\u2028' || c == '\u2029'

/-- Match a literal token at the head of the input, returning what
follows it. -/
def dropToken? : List Char → List Char → Option (List Char)
  | [], l => some l
  | _ :: _, [] => none
  | t :: ts, c :: cs => if c = t then dropToken? ts cs else none

/-- The characters of the literal `node_modules`. -/
def nmToken : List Char :=
  ['n', 'o', 'd', 'e', '_', 'm', 'o', 'd', 'u', 'l', 'e', 's']

/-- If the input starts with the literal `node_modules`, drop those 12
characters. -/
def dropNM? (l : List Char) : Option (List Char) :=
  dropToken? nmToken l

/-- Match `[\\/]node_modules[\\/]` at the head of the input, returning
what follows the consumed match. -/
def sepNM? : List Char → Option (List Char)
  | c :: rest =>
    if isSep c then
      match dropNM? rest with
      | some (c2 :: rest3) => if isSep c2 then some rest3 else none
      | _ => none
    else none
  | [] => none

/-- Match `^node_modules[\\/]` at the head of the input (only valid at
position 0 of the string), returning what follows the consumed match. -/
def startNM? (l : List Char) : Option (List Char) :=
  match dropNM? l with
  | some (c2 :: rest3) => if isSep c2 then some rest3 else none
  | _ => none

/-- The global replace `query.replace(/([\\/]|^)node_modules[\\/], '#')`
as a left-to-right scan: at each position try the separator alternative,
then (at position 0 only) the `^` alternative; a match is replaced by
`'#'` and scanning resumes after it, otherwise one character is copied.
`fuel` only bounds the recursion; every step consumes at least one input
character, so the callers pass the input length. -/
def rnmGo : Nat → Bool → List Char → List Char
  | 0, _, l => l
  | _ + 1, _, [] => []
  | fuel + 1, atStart, c :: rest =>
    match sepNM? (c :: rest) with
    | some rest3 => '#' :: rnmGo fuel false rest3
    | none =>
      match (if atStart then startNM? (c :: rest) else none) with
      | some rest3 => '#' :: rnmGo fuel false rest3
      | none => c :: rnmGo fuel false rest

/-- First rewrite of `cleanQuery` (line 33): replace separator-delimited
`node_modules` path components by `'#'`. -/
def replaceNodeModules (l : List Char) : List Char :=
  rnmGo l.length true l

/-- Second rewrite of `cleanQuery` (line 36): `query.replace(/^#+/g, '')`
removes the maximal run of leading `'#'` characters. -/
def dropLeadingHashes (l : List Char) : List Char :=
  l.dropWhile (fun c => c == '#')

/-- Third rewrite of `cleanQuery` (line 39):
`query.replace(/[\\/](.*?)$/g, '')`. The lazy group must reach the end
of the string and `.` cannot cross a line terminator, so the first
separator having no line terminator after it — and everything following
it — is removed; if every separator is followed by a line terminator
the string is unchanged. -/
def dropFromSep : List Char → List Char
  | [] => []
  | c :: rest =>
    if isSep c && !(rest.any isLineTerminator) then []
    else c :: dropFromSep rest

/-- The pure string transformation of `cleanQuery` (lines 25-42),
applying the three rewrites in source order. The initial branch turning
an absolute existing filesystem path into a relative one consults the
filesystem and is outside this model; on queries that are not absolute
existing paths `cleanQuery` performs exactly this transformation. -/
def cleanQueryPure (query : String) : String :=
  String.mk (dropFromSep (dropLeadingHashes (replaceNodeModules query.toList)))

example : cleanQueryPure "a/node_modules/b" = "a#b" := by decide
example : cleanQueryPure "node_modules/foo/bar.js" = "foo" := by decide
example : cleanQueryPure "##x" = "x" := by decide
example : cleanQueryPure "#node_modules/x\ny" = "node_modules/x\ny" := by decide
example : cleanQueryPure "node_modules/x\ny" = "x\ny" := by decide
example : cleanQueryPure "a/b\nc" = "a/b\nc" := by decide

/-- The name under which a pattern's resolved package is reported
(placeholder name when the pattern is unresolved; the claims below only
use it where resolution is established). -/
def resolvedName (res : Resolver) (pattern : String) : String :=
  match res.getResolvedPattern pattern with
  | some m => m.name
  | none => ""

/-- Every pattern on the chain from this request to the root has a
resolved package. -/
def chainResolvable (res : Resolver) (r : Request) : Bool :=
  r.chainPatterns.all (fun p => (res.getResolvedPattern p).isSome)

/-- Either the request is a root request, or every pattern on its
parent's chain has a resolved package. -/
def parentChainResolvable (res : Resolver) (r : Request) : Bool :=
  match r.parentRequest with
  | none => true
  | some parent => chainResolvable res parent

/-- Either the request is a root request, or its immediate parent's
pattern has no resolved package. -/
def noUsableParent (res : Resolver) (r : Request) : Bool :=
  match r.parentRequest with
  | none => true
  | some parent => (res.getResolvedPattern parent.pattern).isNone

theorem walkChain_ok (res : Resolver) :
    (r : Request) → chainResolvable res r = true →
      walkChain res r = .ok (r.chainPatterns.map (resolvedName res))
  | .mk p none, h => by
    have hp : (res.getResolvedPattern p).isSome = true := by
      simpa [chainResolvable, Request.chainPatterns] using h
    obtain ⟨m, hm⟩ := Option.isSome_iff_exists.mp hp
    simp [walkChain, Resolver.getStrictResolvedPattern, hm, Request.chainPatterns,
      resolvedName]
  | .mk p (some parent), h => by
    have h2 : (res.getResolvedPattern p).isSome = true ∧ chainResolvable res parent = true := by
      simpa [chainResolvable, Request.chainPatterns, List.all_cons] using h
    obtain ⟨m, hm⟩ := Option.isSome_iff_exists.mp h2.1
    have ih := walkChain_ok res parent h2.2
    simp [walkChain, Resolver.getStrictResolvedPattern, hm, ih, Request.chainPatterns,
      resolvedName, Bind.bind, Except.bind, Pure.pure, Except.pure]

/-- The first pattern on a request's chain is its own pattern. -/
theorem chainPatterns_head (r : Request) : ∃ t, r.chainPatterns = r.pattern :: t := by
  match r with
  | .mk p none => exact ⟨[], rfl⟩
  | .mk p (some parent) => exact ⟨parent.chainPatterns, rfl⟩

/-- A resolvable chain starts with a resolvable pattern. -/
theorem chainResolvable_self (res : Resolver) (r : Request)
    (h : chainResolvable res r = true) :
    (res.getResolvedPattern r.pattern).isSome = true := by
  obtain ⟨t, ht⟩ := chainPatterns_head r
  unfold chainResolvable at h
  rw [ht] at h
  simp [List.all_cons] at h
  exact h.1

theorem dependedOnReasons_isOk (res : Resolver) :
    (reqs : List Request) → (∀ r ∈ reqs, parentChainResolvable res r = true) →
      ∃ rs, dependedOnReasons res reqs = .ok rs
  | [], _ => ⟨[], rfl⟩
  | .mk p par :: rest, h => by
    obtain ⟨tailRs, htail⟩ :=
      dependedOnReasons_isOk res rest (fun r hr => h r (List.mem_cons_of_mem _ hr))
    match par with
    | none => exact ⟨tailRs, by simpa [dependedOnReasons, Request.parentRequest] using htail⟩
    | some parent =>
      have hpar : chainResolvable res parent = true := by
        simpa [parentChainResolvable, Request.parentRequest] using
          h (.mk p (some parent)) (List.mem_cons_self _ _)
      obtain ⟨m, hm⟩ := Option.isSome_iff_exists.mp (chainResolvable_self res parent hpar)
      refine ⟨.dependedOn (parent.chainPatterns.map (resolvedName res)).reverse :: tailRs, ?_⟩
      simp [dependedOnReasons, Request.parentRequest, hm, walkChain_ok res parent hpar, htail,
        Bind.bind, Except.bind, Pure.pure, Except.pure]

theorem dependedOnReasons_nil_of (res : Resolver) :
    (reqs : List Request) → (∀ r ∈ reqs, noUsableParent res r = true) →
      dependedOnReasons res reqs = .ok []
  | [], _ => rfl
  | .mk p par :: rest, h => by
    have htail := dependedOnReasons_nil_of res rest (fun r hr => h r (List.mem_cons_of_mem _ hr))
    match par with
    | none => simpa [dependedOnReasons, Request.parentRequest] using htail
    | some parent =>
      have hnone : res.getResolvedPattern parent.pattern = none := by
        have := h (.mk p (some parent)) (List.mem_cons_self _ _)
        simpa [noUsableParent, Request.parentRequest, Option.isNone_iff_eq_none] using this
      simpa [dependedOnReasons, Request.parentRequest, hnone] using htail

theorem dependedOnReasons_shape (res : Resolver) :
    (reqs : List Request) → (rs : List Reason) → dependedOnReasons res reqs = .ok rs →
      ∀ x ∈ rs, ∃ chain, x = Reason.dependedOn chain
  | [], rs, h => by
    intro x hx
    simp only [dependedOnReasons] at h
    cases h
    cases hx
  | .mk p par :: rest, rs, h => by
    intro x hx
    match par with
    | none =>
      exact dependedOnReasons_shape res rest rs
        (by simpa [dependedOnReasons, Request.parentRequest] using h) x hx
    | some parent =>
      rw [show (Request.mk p (some parent) :: rest) = (Request.mk p (some parent) :: rest) from rfl] at h
      simp only [dependedOnReasons, Request.parentRequest] at h
      cases hdep : res.getResolvedPattern parent.pattern with
      | none =>
        rw [hdep] at h
        exact dependedOnReasons_shape res rest rs h x hx
      | some m =>
        rw [hdep] at h
        cases hw : walkChain res parent with
        | error e => rw [hw] at h; simp [Bind.bind, Except.bind] at h
        | ok chain =>
          rw [hw] at h
          cases ht : dependedOnReasons res rest with
          | error e => rw [ht] at h; simp [Bind.bind, Except.bind] at h
          | ok tailRs =>
            rw [ht] at h
            simp [Bind.bind, Except.bind, Pure.pure, Except.pure] at h
            subst h
            cases hx with
            | head => exact ⟨chain.reverse, rfl⟩
            | tail _ hx2 => exact dependedOnReasons_shape res rest tailRs ht x hx2

theorem specifiedReasons_shape (origin : List (String × String)) :
    (pats : List String) → ∀ x ∈ specifiedReasons origin pats, ∃ t, x = Reason.specified t
  | [] => by intro x hx; cases hx
  | pattern :: rest => by
    intro x hx
    simp only [specifiedReasons] at hx
    split at hx
    · rename_i rootType ho
      split at hx
      · cases hx with
        | head => exact ⟨rootType, rfl⟩
        | tail _ hx2 => exact specifiedReasons_shape origin rest x hx2
      · exact specifiedReasons_shape origin rest x hx
    · exact specifiedReasons_shape origin rest x hx

theorem hoistedFromList_shape (key : String) :
    (prev : List String) → ∀ x ∈ hoistedFromList key prev, ∃ q, x = Reason.hoistedFrom q
  | [] => by intro x hx; cases hx
  | pattern :: rest => by
    intro x hx
    simp only [hoistedFromList] at hx
    by_cases hq : pattern = key
    · rw [if_neg (by simpa using hq)] at hx
      exact hoistedFromList_shape key rest x hx
    · rw [if_pos (by simpa using hq)] at hx
      cases hx with
      | head => exact ⟨pattern, rfl⟩
      | tail _ hx2 => exact hoistedFromList_shape key rest x hx2

theorem mem_hoistedFromList (key q : String) :
    (prev : List String) →
      (Reason.hoistedFrom q ∈ hoistedFromList key prev ↔ q ∈ prev ∧ q ≠ key)
  | [] => by simp [hoistedFromList]
  | pattern :: rest => by
    simp only [hoistedFromList]
    by_cases hq : pattern = key
    · rw [if_neg (by simpa using hq)]
      rw [mem_hoistedFromList key q rest]
      subst hq
      constructor
      · exact fun h => ⟨List.mem_cons_of_mem _ h.1, h.2⟩
      · rintro ⟨h1, h2⟩
        cases List.mem_cons.mp h1 with
        | inl he => exact absurd he h2
        | inr hm => exact ⟨hm, h2⟩
    · rw [if_pos (by simpa using hq)]
      constructor
      · intro h
        cases List.mem_cons.mp h with
        | inl he =>
          have : q = pattern := by
            injection he
          subst this
          exact ⟨List.mem_cons_self _ _, hq⟩
        | inr hm =>
          have := (mem_hoistedFromList key q rest).mp hm
          exact ⟨List.mem_cons_of_mem _ this.1, this.2⟩
      · rintro ⟨h1, h2⟩
        cases List.mem_cons.mp h1 with
        | inl he =>
          subst he
          exact List.mem_cons_self _ _
        | inr hm =>
          exact List.mem_cons_of_mem _ ((mem_hoistedFromList key q rest).mpr ⟨hm, h2⟩)

/-- A successful origin lookup returns a pair recorded in the map. -/
theorem lookupOrigin_mem (origin : List (String × String)) (p t : String)
    (h : lookupOrigin origin p = some t) : (p, t) ∈ origin := by
  unfold lookupOrigin at h
  cases hf : origin.find? (fun pr => pr.1 = p) with
  | none => rw [hf] at h; cases h
  | some pr =>
    rw [hf] at h
    have hmem := List.mem_of_find?_eq_some hf
    have hpred := List.find?_some hf
    have h1 : pr.1 = p := by simpa using hpred
    have h2 : pr.2 = t := by simpa using h
    cases pr
    simp only at h1 h2
    subst h1
    subst h2
    exact hmem

theorem specifiedReasons_eq_filterMap (origin : List (String × String))
    (hne : ∀ pr ∈ origin, pr.2 ≠ "") :
    (pats : List String) →
      specifiedReasons origin pats =
        pats.filterMap (fun p => (lookupOrigin origin p).map Reason.specified)
  | [] => rfl
  | pattern :: rest => by
    have ih := specifiedReasons_eq_filterMap origin hne rest
    simp only [specifiedReasons, List.filterMap_cons]
    cases ho : lookupOrigin origin pattern with
    | none => simpa using ih
    | some t =>
      have ht : t ≠ "" := hne (pattern, t) (lookupOrigin_mem origin pattern t ho)
      simp [ht, ih]

theorem outputReasons_append :
    (a b : List Output) → outputReasons (a ++ b) = outputReasons a ++ outputReasons b
  | [], b => rfl
  | x :: rest, b => by
    cases x <;> simp [outputReasons, outputReasons_append rest b]

theorem outputReasons_reasonsOutput :
    (rs : List Reason) → outputReasons (reasonsOutput rs) = rs
  | [] => rfl
  | [r] => rfl
  | r1 :: r2 :: rest => by simp [reasonsOutput, outputReasons]

theorem infoHoistedTo_not_mem_reasonsOutput (k : String) :
    (rs : List Reason) → Output.infoHoistedTo k ∉ reasonsOutput rs
  | [] => by simp [reasonsOutput]
  | [r] => by simp [reasonsOutput]
  | r1 :: r2 :: rest => by simp [reasonsOutput]

theorem infoHoistedTo_not_mem_statsOutput (k : String) :
    Output.infoHoistedTo k ∉ statsOutput := by
  simp [statsOutput]

/-- Inversion for a successful matching `run`: what the invariant check
and the dependency-reason loop must have produced, and the exact shape
of the emitted event sequence. -/
theorem run_ok_inv (res : Resolver) (origin : List (String × String))
    (hoisted : List HoistManifest) (query : String) (outs : List Output)
    (m : HoistManifest) (hm : findMatch query hoisted = some m)
    (hrun : run res origin hoisted query = .ok outs) :
    ∃ matchRef depReasons,
      m.pkg._reference = some matchRef ∧
      dependedOnReasons res matchRef.requests = .ok depReasons ∧
      outs = [Output.step 1 3, Output.step 2 3, Output.step 3 3]
        ++ (if query = m.originalKey then [Output.infoHoistedTo m.key] else [])
        ++ reasonsOutput (depReasons ++ specifiedReasons origin matchRef.patterns
            ++ hoistedFromReasons m)
        ++ statsOutput := by
  simp only [run, hm] at hrun
  cases href : m.pkg._reference with
  | none => simp [href] at hrun
  | some matchRef =>
    simp only [href] at hrun
    cases hdep : dependedOnReasons res matchRef.requests with
    | error e => simp [hdep] at hrun
    | ok depReasons =>
      simp only [hdep, Except.ok.injEq] at hrun
      refine ⟨matchRef, depReasons, rfl, hdep, ?_⟩
      simp [← hrun]

/-- C1: for every hoisted tree and cleaned query, the match search
selects the first entry in iteration order whose current key equals the
query or whose `previousKeys` contain the query; later matching entries
are ignored, and historical keys in `previousKeys` stay matchable. -/
theorem why_first_match_wins (query : String) (pre post : List HoistManifest)
    (m : HoistManifest)
    (hpre : ∀ x ∈ pre, x.key ≠ query ∧ query ∉ x.previousKeys)
    (hm : m.key = query ∨ query ∈ m.previousKeys) :
    findMatch query (pre ++ m :: post) = some m := by
  induction pre with
  | nil =>
    simp only [List.nil_append, findMatch]
    rw [if_pos hm]
  | cons x rest ih =>
    have hx := hpre x (List.mem_cons_self _ _)
    have hcond : ¬(x.key = query ∨ query ∈ x.previousKeys) := by
      rintro (h1 | h2)
      · exact hx.1 h1
      · exact hx.2 h2
    simp only [List.cons_append, findMatch]
    rw [if_neg hcond]
    exact ih (fun y hy => hpre y (List.mem_cons_of_mem _ hy))

theorem why_first_match_wins_instance :
    findMatch "lodash"
        [⟨"underscore", [], "underscore", ⟨"underscore", none⟩⟩,
         ⟨"query#lodash", ["lodash"], "lodash", ⟨"lodash", none⟩⟩,
         ⟨"lodash", [], "lodash", ⟨"lodash-bis", none⟩⟩] =
      some ⟨"query#lodash", ["lodash"], "lodash", ⟨"lodash", none⟩⟩ :=
  why_first_match_wins "lodash"
    [⟨"underscore", [], "underscore", ⟨"underscore", none⟩⟩]
    [⟨"lodash", [], "lodash", ⟨"lodash-bis", none⟩⟩]
    ⟨"query#lodash", ["lodash"], "lodash", ⟨"lodash", none⟩⟩
    (by decide) (by decide)

/-- C2: for a request of the matched package whose parent request's
pattern is resolved (here: whose whole parent chain is resolved, which
is the spec's provenance-completeness property and what the strict walk
needs to produce a chain at all), the produced reason carries exactly
the resolved package names of the parent chain in root-to-leaf order,
one name per ancestor request up to the root. -/
theorem why_depended_on_chain (res : Resolver) (pattern : String) (parent : Request)
    (h : chainResolvable res parent = true) :
    dependedOnReasons res [Request.mk pattern (some parent)] =
      .ok [Reason.dependedOn (parent.chainPatterns.reverse.map (resolvedName res))] ∧
    (parent.chainPatterns.reverse.map (resolvedName res)).length = parent.chainLength := by
  constructor
  · obtain ⟨m, hm⟩ := Option.isSome_iff_exists.mp (chainResolvable_self res parent h)
    simp [dependedOnReasons, Request.parentRequest, hm, walkChain_ok res parent h,
      Bind.bind, Except.bind, Pure.pure, Except.pure, List.map_reverse]
  · simp [Request.chainLength]

theorem why_depended_on_chain_instance :
    dependedOnReasons
        [("b@^1.0.0", ⟨"b", none⟩), ("a@^1.0.0", ⟨"a", none⟩)]
        [Request.mk "x@^1.0.0"
          (some (Request.mk "a@^1.0.0" (some (Request.mk "b@^1.0.0" none))))] =
      .ok [Reason.dependedOn ["b", "a"]] ∧ (["b", "a"] : List String).length = 2 :=
  (why_depended_on_chain [("b@^1.0.0", ⟨"b", none⟩), ("a@^1.0.0", ⟨"a", none⟩)]
    "x@^1.0.0" (Request.mk "a@^1.0.0" (some (Request.mk "b@^1.0.0" none)))
    (by decide)).imp (fun h => h) (fun h => h)

/-- C4: when the query matches nothing in the hoisted tree, `run`
returns normally after reporting the ordinary "unknown match" error:
no exception, and none of the later reason-building or reporting
events. -/
theorem why_unknown_match_returns_normally (res : Resolver)
    (origin : List (String × String)) (hoisted : List HoistManifest) (query : String)
    (h : findMatch query hoisted = none) :
    run res origin hoisted query =
      .ok [Output.step 1 3, Output.step 2 3, Output.step 3 3, Output.errorUnknownMatch] := by
  simp [run, h]

theorem why_unknown_match_returns_normally_instance :
    run [] [] [⟨"left-pad", [], "left-pad", ⟨"left-pad", some ⟨[], []⟩⟩⟩] "right-pad" =
      .ok [Output.step 1 3, Output.step 2 3, Output.step 3 3, Output.errorUnknownMatch] :=
  why_unknown_match_returns_normally [] []
    [⟨"left-pad", [], "left-pad", ⟨"left-pad", some ⟨[], []⟩⟩⟩] "right-pad" rfl

/-- C7: when every pattern occurring anywhere on a parent chain of the
given requests has a resolved package (provenance completeness), the
dependency-reason loop — whose chain walk uses the strict accessor —
never reaches the `UnresolvedPatternError` failure branch. -/
theorem why_strict_walk_never_fails (res : Resolver) (requests : List Request)
    (h : ∀ r ∈ requests, parentChainResolvable res r = true) :
    ∃ rs, dependedOnReasons res requests = .ok rs :=
  dependedOnReasons_isOk res requests h

theorem why_strict_walk_never_fails_instance :
    ∃ rs, dependedOnReasons [("a@1.0.0", ⟨"a", none⟩)]
        [Request.mk "x@1.0.0" (some (Request.mk "a@1.0.0" none)),
         Request.mk "root@1.0.0" none] = .ok rs :=
  why_strict_walk_never_fails [("a@1.0.0", ⟨"a", none⟩)]
    [Request.mk "x@1.0.0" (some (Request.mk "a@1.0.0" none)),
     Request.mk "root@1.0.0" none] (by decide)

/-- C3 counterexample: a package that was never relocated
(`key = originalKey = "foo"`), queried by that key, still gets an
`infoHoistedTo` relocation report — the source gates the report on
`query === match.originalKey`, not on `key !== originalKey`. -/
theorem why_hoisted_to_not_gated_by_relocation :
    (⟨"foo", [], "foo", ⟨"foo", some ⟨[], []⟩⟩⟩ : HoistManifest).key =
      (⟨"foo", [], "foo", ⟨"foo", some ⟨[], []⟩⟩⟩ : HoistManifest).originalKey ∧
    run [] [] [⟨"foo", [], "foo", ⟨"foo", some ⟨[], []⟩⟩⟩] "foo" =
      .ok [.step 1 3, .step 2 3, .step 3 3, .infoHoistedTo "foo", .errorWhoKnows,
        .infoDiskSizeWithout "0MB", .infoDiskSizeUnique "0MB",
        .infoDiskSizeTransitive "0MB", .infoSharedDependencies 0] ∧
    Output.infoHoistedTo "foo" ∈
      ([.step 1 3, .step 2 3, .step 3 3, .infoHoistedTo "foo", .errorWhoKnows,
        .infoDiskSizeWithout "0MB", .infoDiskSizeUnique "0MB",
        .infoDiskSizeTransitive "0MB", .infoSharedDependencies 0] : List Output) :=
  ⟨rfl, rfl, by decide⟩

/-- C3 (amended): for a successful query, the "hoisted to" relocation
fact — always carrying the current key — is reported exactly when the
cleaned query equals the match's `originalKey`, regardless of whether
the current key differs from it. -/
theorem why_hoisted_to_iff_query_eq_original_key (res : Resolver)
    (origin : List (String × String)) (hoisted : List HoistManifest)
    (query : String) (outs : List Output) (m : HoistManifest)
    (hm : findMatch query hoisted = some m)
    (hrun : run res origin hoisted query = .ok outs) :
    ((Output.infoHoistedTo m.key ∈ outs) ↔ query = m.originalKey) ∧
    (∀ k, Output.infoHoistedTo k ∈ outs → k = m.key) := by
  obtain ⟨ref, dep, href, hdep, houts⟩ := run_ok_inv res origin hoisted query outs m hm hrun
  subst houts
  have hsplit : ∀ k, Output.infoHoistedTo k ∈
      ([Output.step 1 3, Output.step 2 3, Output.step 3 3]
        ++ (if query = m.originalKey then [Output.infoHoistedTo m.key] else [])
        ++ reasonsOutput (dep ++ specifiedReasons origin ref.patterns ++ hoistedFromReasons m)
        ++ statsOutput) ↔
      Output.infoHoistedTo k ∈
        (if query = m.originalKey then [Output.infoHoistedTo m.key] else []) := by
    intro k
    simp only [List.mem_append]
    constructor
    · rintro (((h1 | h2) | h3) | h4)
      · simp at h1
      · exact h2
      · exact absurd h3 (infoHoistedTo_not_mem_reasonsOutput k _)
      · exact absurd h4 (infoHoistedTo_not_mem_statsOutput k)
    · intro h2
      exact Or.inl (Or.inl (Or.inr h2))
  constructor
  · rw [hsplit m.key]
    by_cases hq : query = m.originalKey
    · rw [if_pos hq]
      simp [hq]
    · rw [if_neg hq]
      simp [hq]
  · intro k hk
    rw [hsplit k] at hk
    by_cases hq : query = m.originalKey
    · rw [if_pos hq] at hk
      have : Output.infoHoistedTo k = Output.infoHoistedTo m.key := by
        simpa using hk
      injection this
    · rw [if_neg hq] at hk
      cases hk

theorem why_hoisted_to_iff_query_eq_original_key_instance :
    ((Output.infoHoistedTo "k2" ∈
        ([.step 1 3, .step 2 3, .step 3 3, .infoHoistedTo "k2",
          .infoReason (.hoistedFrom "k1"),
          .infoDiskSizeWithout "0MB", .infoDiskSizeUnique "0MB",
          .infoDiskSizeTransitive "0MB", .infoSharedDependencies 0] : List Output)) ↔
      ("k1" : String) = "k1") ∧
    (∀ k, Output.infoHoistedTo k ∈
        ([.step 1 3, .step 2 3, .step 3 3, .infoHoistedTo "k2",
          .infoReason (.hoistedFrom "k1"),
          .infoDiskSizeWithout "0MB", .infoDiskSizeUnique "0MB",
          .infoDiskSizeTransitive "0MB", .infoSharedDependencies 0] : List Output) → k = "k2") :=
  why_hoisted_to_iff_query_eq_original_key [] []
    [⟨"k2", ["k1"], "k1", ⟨"pkg", some ⟨[], []⟩⟩⟩] "k1" _
    ⟨"k2", ["k1"], "k1", ⟨"pkg", some ⟨[], []⟩⟩⟩ rfl rfl

/-- C5 counterexample: a `previousKeys` entry equal to the current key
is not surfaced: here `previousKeys = ["a"]` and `key = "a"`, and the
successful query reports no `hoistedFrom "a"` reason at all. -/
theorem why_hoisted_from_skips_current_key :
    ("a" : String) ∈ (⟨"a", ["a"], "b", ⟨"p", some ⟨[], []⟩⟩⟩ : HoistManifest).previousKeys ∧
    run [] [] [⟨"a", ["a"], "b", ⟨"p", some ⟨[], []⟩⟩⟩] "a" =
      .ok [.step 1 3, .step 2 3, .step 3 3, .errorWhoKnows,
        .infoDiskSizeWithout "0MB", .infoDiskSizeUnique "0MB",
        .infoDiskSizeTransitive "0MB", .infoSharedDependencies 0] ∧
    Reason.hoistedFrom "a" ∉ outputReasons
      [.step 1 3, .step 2 3, .step 3 3, .errorWhoKnows,
        .infoDiskSizeWithout "0MB", .infoDiskSizeUnique "0MB",
        .infoDiskSizeTransitive "0MB", .infoSharedDependencies 0] :=
  ⟨by decide, rfl, by decide⟩

/-- C5 (amended): for a successful query, exactly the entries of the
match's `previousKeys` history that differ from its current key are
surfaced as "hoisted from" reasons; an entry equal to the current key
is skipped. -/
theorem why_hoisted_from_previous_keys_except_current (res : Resolver)
    (origin : List (String × String)) (hoisted : List HoistManifest)
    (query : String) (outs : List Output) (m : HoistManifest)
    (hm : findMatch query hoisted = some m)
    (hrun : run res origin hoisted query = .ok outs) :
    ∀ p, Reason.hoistedFrom p ∈ outputReasons outs ↔ p ∈ m.previousKeys ∧ p ≠ m.key := by
  obtain ⟨ref, dep, href, hdep, houts⟩ := run_ok_inv res origin hoisted query outs m hm hrun
  subst houts
  intro p
  have hite : outputReasons (if query = m.originalKey
      then [Output.infoHoistedTo m.key] else []) = [] := by
    split <;> rfl
  rw [outputReasons_append, outputReasons_append, outputReasons_append]
  rw [hite, outputReasons_reasonsOutput]
  show Reason.hoistedFrom p ∈
      (([] ++ []) ++ (dep ++ specifiedReasons origin ref.patterns ++ hoistedFromReasons m))
        ++ [] ↔ _
  simp only [List.nil_append, List.append_nil, List.mem_append]
  constructor
  · rintro ((h1 | h2) | h3)
    · obtain ⟨chain, hc⟩ := dependedOnReasons_shape res ref.requests dep hdep _ h1
      cases hc
    · obtain ⟨t, hc⟩ := specifiedReasons_shape origin ref.patterns _ h2
      cases hc
    · exact (mem_hoistedFromList m.key p m.previousKeys).mp h3
  · intro hp
    exact Or.inr ((mem_hoistedFromList m.key p m.previousKeys).mpr hp)

theorem why_hoisted_from_previous_keys_except_current_instance :
    Reason.hoistedFrom "old" ∈ outputReasons
      [.step 1 3, .step 2 3, .step 3 3, .infoReason (.hoistedFrom "old"),
        .infoDiskSizeWithout "0MB", .infoDiskSizeUnique "0MB",
        .infoDiskSizeTransitive "0MB", .infoSharedDependencies 0] ↔
    ("old" : String) ∈ (["old", "k"] : List String) ∧ ("old" : String) ≠ "k" :=
  why_hoisted_from_previous_keys_except_current [] []
    [⟨"k", ["old", "k"], "orig", ⟨"pkg", some ⟨[], []⟩⟩⟩] "k" _
    ⟨"k", ["old", "k"], "orig", ⟨"pkg", some ⟨[], []⟩⟩⟩ rfl rfl "old"

/-- C8: when every request of the matched package is a root request or
has a parent whose pattern is unresolved, the dependency loop yields no
reason, so the surfaced reasons are exactly the manifest-classification
and key-history ones and no "depended on" entry appears. -/
theorem why_no_dep_reason_without_resolved_parent (res : Resolver)
    (origin : List (String × String)) (hoisted : List HoistManifest)
    (query : String) (outs : List Output) (m : HoistManifest) (ref : PackageReference)
    (hm : findMatch query hoisted = some m)
    (hrun : run res origin hoisted query = .ok outs)
    (href : m.pkg._reference = some ref)
    (hreq : ∀ r ∈ ref.requests, noUsableParent res r = true) :
    outputReasons outs = specifiedReasons origin ref.patterns ++ hoistedFromReasons m ∧
    ∀ chain, Reason.dependedOn chain ∉ outputReasons outs := by
  obtain ⟨ref2, dep, href2, hdep, houts⟩ := run_ok_inv res origin hoisted query outs m hm hrun
  rw [href] at href2
  have hr : ref = ref2 := by injection href2
  subst hr
  have hdep0 := dependedOnReasons_nil_of res ref.requests hreq
  rw [hdep0] at hdep
  have hd : dep = [] := by injection hdep with h; exact h.symm
  subst hd
  subst houts
  have hite : outputReasons (if query = m.originalKey
      then [Output.infoHoistedTo m.key] else []) = [] := by
    split <;> rfl
  rw [outputReasons_append, outputReasons_append, outputReasons_append]
  rw [hite, outputReasons_reasonsOutput]
  rw [show outputReasons [Output.step 1 3, Output.step 2 3, Output.step 3 3] =
      ([] : List Reason) from rfl,
    show outputReasons statsOutput = ([] : List Reason) from rfl]
  refine ⟨by simp, ?_⟩
  intro chain hmem
  simp only [List.nil_append, List.append_nil, List.mem_append] at hmem
  cases hmem with
  | inl h2 =>
    obtain ⟨t, hc⟩ := specifiedReasons_shape origin ref.patterns _ h2
    cases hc
  | inr h3 =>
    obtain ⟨q, hc⟩ := hoistedFromList_shape m.key m.previousKeys _ h3
    cases hc

theorem why_no_dep_reason_without_resolved_parent_instance :
    outputReasons
        [.step 1 3, .step 2 3, .step 3 3, .infoReasons,
          .listReasons [.specified "dependencies", .hoistedFrom "old"],
          .infoDiskSizeWithout "0MB", .infoDiskSizeUnique "0MB",
          .infoDiskSizeTransitive "0MB", .infoSharedDependencies 0] =
      [Reason.specified "dependencies", Reason.hoistedFrom "old"] :=
  (why_no_dep_reason_without_resolved_parent []
    [("p@1.0.0", "dependencies")]
    [⟨"p", ["old"], "orig",
      ⟨"p", some ⟨["p@1.0.0"],
        [Request.mk "p@1.0.0" none,
         Request.mk "q@1.0.0" (some (Request.mk "zz@1.0.0" none))]⟩⟩⟩] "p" _
    ⟨"p", ["old"], "orig",
      ⟨"p", some ⟨["p@1.0.0"],
        [Request.mk "p@1.0.0" none,
         Request.mk "q@1.0.0" (some (Request.mk "zz@1.0.0" none))]⟩⟩⟩
    ⟨["p@1.0.0"],
      [Request.mk "p@1.0.0" none,
       Request.mk "q@1.0.0" (some (Request.mk "zz@1.0.0" none))]⟩
    rfl rfl rfl (by decide)).1

/-- C10: the four disk-usage statistics closing every successful query
are the constants of the source — `"0MB"` three times and a shared
count of `0` — independent of the resolver and the hoisted tree. -/
theorem why_stats_constant (res : Resolver) (origin : List (String × String))
    (hoisted : List HoistManifest) (query : String) (outs : List Output)
    (m : HoistManifest) (hm : findMatch query hoisted = some m)
    (hrun : run res origin hoisted query = .ok outs) :
    ∃ front, outs = front ++
      [Output.infoDiskSizeWithout "0MB", Output.infoDiskSizeUnique "0MB",
       Output.infoDiskSizeTransitive "0MB", Output.infoSharedDependencies 0] := by
  obtain ⟨ref, dep, href, hdep, houts⟩ := run_ok_inv res origin hoisted query outs m hm hrun
  refine ⟨[Output.step 1 3, Output.step 2 3, Output.step 3 3]
    ++ (if query = m.originalKey then [Output.infoHoistedTo m.key] else [])
    ++ reasonsOutput (dep ++ specifiedReasons origin ref.patterns ++ hoistedFromReasons m), ?_⟩
  rw [houts]
  simp [statsOutput]

theorem why_stats_constant_instance :
    ∃ front,
      [Output.step 1 3, Output.step 2 3, Output.step 3 3, Output.infoHoistedTo "foo",
        Output.errorWhoKnows, Output.infoDiskSizeWithout "0MB", Output.infoDiskSizeUnique "0MB",
        Output.infoDiskSizeTransitive "0MB", Output.infoSharedDependencies 0] = front ++
      [Output.infoDiskSizeWithout "0MB", Output.infoDiskSizeUnique "0MB",
       Output.infoDiskSizeTransitive "0MB", Output.infoSharedDependencies 0] :=
  why_stats_constant [] [] [⟨"foo", [], "foo", ⟨"foo", some ⟨[], []⟩⟩⟩] "foo" _
    ⟨"foo", [], "foo", ⟨"foo", some ⟨[], []⟩⟩⟩ rfl rfl

/-- C6: with origin classifications that are nonempty strings (they are
manifest section names), each pattern of the matched package present in
the root-pattern origin map contributes a "specified in manifest as"
reason carrying its classification unchanged, in pattern order, and
patterns absent from the map contribute nothing. -/
theorem why_specified_reasons_from_origin_map (origin : List (String × String))
    (hne : ∀ pr ∈ origin, pr.2 ≠ "") (pats : List String) :
    specifiedReasons origin pats =
      pats.filterMap (fun p => (lookupOrigin origin p).map Reason.specified) :=
  specifiedReasons_eq_filterMap origin hne pats

theorem why_specified_reasons_from_origin_map_instance :
    specifiedReasons [("a@^1.0.0", "dependencies"), ("d@^2.0.0", "devDependencies")]
        ["a@^1.0.0", "zzz@1.0.0"] =
      (["a@^1.0.0", "zzz@1.0.0"] : List String).filterMap
        (fun p => (lookupOrigin
          [("a@^1.0.0", "dependencies"), ("d@^2.0.0", "devDependencies")] p).map
            Reason.specified) :=
  why_specified_reasons_from_origin_map
    [("a@^1.0.0", "dependencies"), ("d@^2.0.0", "devDependencies")]
    (by decide) ["a@^1.0.0", "zzz@1.0.0"]

example :
    specifiedReasons [("a@^1.0.0", "dependencies"), ("d@^2.0.0", "devDependencies")]
        ["a@^1.0.0", "zzz@1.0.0"] = [.specified "dependencies"] := by decide

theorem dropToken?_eq_some : (ts l r : List Char) → dropToken? ts l = some r → l = ts ++ r
  | [], l, r, h => by simpa [dropToken?] using h
  | _ :: _, [], _, h => Option.noConfusion h
  | t :: ts, c :: cs, r, h => by
    by_cases hc : c = t
    · simp only [dropToken?, if_pos hc] at h
      rw [hc, List.cons_append]
      exact congrArg (t :: ·) (dropToken?_eq_some ts cs r h)
    · simp [dropToken?, hc] at h

theorem dropNM?_eq_some (l r : List Char) (h : dropNM? l = some r) :
    l = nmToken ++ r :=
  dropToken?_eq_some nmToken l r h

theorem sepNM?_eq_some (l r : List Char) (h : sepNM? l = some r) :
    ∃ c c2, isSep c = true ∧ isSep c2 = true ∧
      l = c :: (nmToken ++ c2 :: r) := by
  unfold sepNM? at h
  split at h
  · rename_i c rest
    split at h
    · rename_i hc
      split at h
      · rename_i c2 rest3 hd
        split at h
        · rename_i hc2
          injection h with h2
          subst h2
          exact ⟨c, c2, hc, hc2, by rw [dropNM?_eq_some rest _ hd]⟩
        · exact Option.noConfusion h
      · exact Option.noConfusion h
    · exact Option.noConfusion h
  · exact Option.noConfusion h

theorem startNM?_eq_some (l r : List Char) (h : startNM? l = some r) :
    ∃ c2, isSep c2 = true ∧ l = nmToken ++ c2 :: r := by
  unfold startNM? at h
  split at h
  · rename_i c2 rest3 hd
    split at h
    · rename_i hc2
      injection h with h2
      subst h2
      exact ⟨c2, hc2, by rw [dropNM?_eq_some l _ hd]⟩
    · exact Option.noConfusion h
  · exact Option.noConfusion h

theorem sepNM?_mem (l r : List Char) (h : sepNM? l = some r) :
    (∀ x ∈ r, x ∈ l) ∧ ∃ c ∈ l, isSep c = true := by
  obtain ⟨c, c2, hc, hc2, hl⟩ := sepNM?_eq_some l r h
  subst hl
  constructor
  · intro x hx
    simp only [List.mem_cons, List.mem_append]
    tauto
  · exact ⟨c, by simp, hc⟩

theorem startNM?_mem (l r : List Char) (h : startNM? l = some r) :
    (∀ x ∈ r, x ∈ l) ∧ ∃ c ∈ l, isSep c = true := by
  obtain ⟨c2, hc2, hl⟩ := startNM?_eq_some l r h
  subst hl
  constructor
  · intro x hx
    simp only [List.mem_cons, List.mem_append]
    tauto
  · exact ⟨c2, by simp [nmToken], hc2⟩

theorem rnmGo_no_sep : (fuel : Nat) → (atStart : Bool) → (l : List Char) →
    (∀ c ∈ l, isSep c = false) → rnmGo fuel atStart l = l
  | 0, _, _, _ => rfl
  | _ + 1, _, [], _ => rfl
  | fuel + 1, atStart, c :: rest, h => by
    have htail := rnmGo_no_sep fuel false rest (fun x hx => h x (List.mem_cons_of_mem _ hx))
    have hs : sepNM? (c :: rest) = none := by
      cases hcase : sepNM? (c :: rest) with
      | none => rfl
      | some r =>
        obtain ⟨c0, hc0, hsep⟩ := (sepNM?_mem _ _ hcase).2
        rw [h c0 hc0] at hsep
        exact Bool.noConfusion hsep
    have hst : (if atStart then startNM? (c :: rest) else none) = none := by
      cases atStart with
      | false => rfl
      | true =>
        simp only [if_true]
        cases hcase : startNM? (c :: rest) with
        | none => rfl
        | some r =>
          obtain ⟨c0, hc0, hsep⟩ := (startNM?_mem _ _ hcase).2
          rw [h c0 hc0] at hsep
          exact Bool.noConfusion hsep
    simp [rnmGo, hs, hst, htail]

theorem rnmGo_mem : (fuel : Nat) → (atStart : Bool) → (l : List Char) → (x : Char) →
    x ∈ rnmGo fuel atStart l → x ∈ l ∨ x = '#'
  | 0, _, _, x, h => Or.inl h
  | _ + 1, _, [], x, h => absurd h (List.not_mem_nil x)
  | fuel + 1, atStart, c :: rest, x, h => by
    simp only [rnmGo] at h
    split at h
    · rename_i rest3 hs
      cases List.mem_cons.mp h with
      | inl he => exact Or.inr he
      | inr hm =>
        cases rnmGo_mem fuel false rest3 x hm with
        | inl hin => exact Or.inl ((sepNM?_mem _ _ hs).1 x hin)
        | inr he => exact Or.inr he
    · split at h
      · rename_i rest3 hst
        have hst2 : startNM? (c :: rest) = some rest3 := by
          cases atStart with
          | true => simpa using hst
          | false => simp at hst
        cases List.mem_cons.mp h with
        | inl he => exact Or.inr he
        | inr hm =>
          cases rnmGo_mem fuel false rest3 x hm with
          | inl hin => exact Or.inl ((startNM?_mem _ _ hst2).1 x hin)
          | inr he => exact Or.inr he
      · cases List.mem_cons.mp h with
        | inl he => exact Or.inl (he ▸ List.mem_cons_self c rest)
        | inr hm =>
          cases rnmGo_mem fuel false rest x hm with
          | inl hin => exact Or.inl (List.mem_cons_of_mem _ hin)
          | inr he => exact Or.inr he

theorem dropFromSep_of_no_lt : (l : List Char) →
    (∀ c ∈ l, isLineTerminator c = false) →
      dropFromSep l = l.takeWhile (fun c => !isSep c)
  | [], _ => rfl
  | c :: rest, h => by
    have hany : rest.any isLineTerminator = false := by
      rw [List.any_eq_false]
      intro x hx
      simp [h x (List.mem_cons_of_mem _ hx)]
    simp only [dropFromSep, hany, List.takeWhile_cons]
    cases hc : isSep c with
    | true => simp [hc]
    | false =>
      simp [hc, dropFromSep_of_no_lt rest (fun x hx => h x (List.mem_cons_of_mem _ hx))]

theorem mem_dropFromSep_no_lt (l : List Char)
    (h : ∀ c ∈ l, isLineTerminator c = false) :
    ∀ x ∈ dropFromSep l, isSep x = false := by
  rw [dropFromSep_of_no_lt l h]
  intro x hx
  have := List.mem_takeWhile_imp hx
  simpa using this

theorem dropFromSep_of_no_sep : (l : List Char) → (∀ c ∈ l, isSep c = false) →
    dropFromSep l = l
  | [], _ => rfl
  | c :: rest, h => by
    simp [dropFromSep, h c (List.mem_cons_self _ _),
      dropFromSep_of_no_sep rest (fun x hx => h x (List.mem_cons_of_mem _ hx))]

theorem dropFromSep_head? : (l : List Char) →
    dropFromSep l = [] ∨ (dropFromSep l).head? = l.head?
  | [] => Or.inl rfl
  | c :: rest => by
    by_cases hcond : (isSep c && !(rest.any isLineTerminator)) = true
    · exact Or.inl (by simp [dropFromSep, hcond])
    · exact Or.inr (by simp [dropFromSep, hcond])

theorem head?_dropLeadingHashes : (l : List Char) →
    (dropLeadingHashes l).head? ≠ some '#'
  | [] => by simp [dropLeadingHashes]
  | c :: rest => by
    by_cases hc : (c == '#') = true
    · rw [show dropLeadingHashes (c :: rest) = dropLeadingHashes rest from by
        simp [dropLeadingHashes, List.dropWhile_cons, hc]]
      exact head?_dropLeadingHashes rest
    · rw [show dropLeadingHashes (c :: rest) = c :: rest from by
        simp [dropLeadingHashes, List.dropWhile_cons, hc]]
      intro heq
      have hcc : c = '#' := by injection heq
      subst hcc
      simp at hc

theorem dropLeadingHashes_of_head (l : List Char) (h : l.head? ≠ some '#') :
    dropLeadingHashes l = l := by
  match l with
  | [] => rfl
  | c :: rest =>
    have hc : (c == '#') = false := by
      cases hcc : (c == '#') with
      | false => rfl
      | true =>
        have : c = '#' := by simpa using hcc
        subst this
        exact absurd rfl h
    simp [dropLeadingHashes, List.dropWhile_cons, hc]

theorem mem_dropLeadingHashes : (l : List Char) → (x : Char) →
    x ∈ dropLeadingHashes l → x ∈ l
  | [], _, h => h
  | c :: rest, x, h => by
    by_cases hc : (c == '#') = true
    · rw [show dropLeadingHashes (c :: rest) = dropLeadingHashes rest from by
        simp [dropLeadingHashes, List.dropWhile_cons, hc]] at h
      exact List.mem_cons_of_mem _ (mem_dropLeadingHashes rest x h)
    · rw [show dropLeadingHashes (c :: rest) = c :: rest from by
        simp [dropLeadingHashes, List.dropWhile_cons, hc]] at h
      exact h

/-- C9 counterexample: with a line terminator in the query the pure
`cleanQuery` transformation is not idempotent — the second application
of the first rewrite fires on a `node_modules` prefix exposed by the
hash-stripping rewrite, because the third rewrite could not consume the
separator (`.` in `/[\\/](.*?)$/` cannot cross a newline) — and the
result can retain a path separator. -/
theorem clean_query_not_idempotent_with_line_terminators :
    cleanQueryPure (cleanQueryPure "#node_modules/x\ny") ≠
      cleanQueryPure "#node_modules/x\ny" ∧
    '/' ∈ (cleanQueryPure "a/b\nc").toList :=
  ⟨by decide, by decide⟩

/-- C9 (amended): on query strings free of line terminators (and not
absolute existing filesystem paths, whose relativization is the I/O
branch outside this pure model), `cleanQuery` is idempotent and its
result contains no path separator and no leading `'#'`. -/
theorem clean_query_idempotent_without_line_terminators (query : String)
    (h : ∀ c ∈ query.toList, isLineTerminator c = false) :
    cleanQueryPure (cleanQueryPure query) = cleanQueryPure query ∧
    (∀ c ∈ (cleanQueryPure query).toList, isSep c = false) ∧
    (cleanQueryPure query).toList.head? ≠ some '#' := by
  have hr1 : ∀ c ∈ replaceNodeModules query.toList, isLineTerminator c = false := by
    intro c hc
    cases rnmGo_mem _ _ _ c hc with
    | inl hin => exact h c hin
    | inr he => subst he; rfl
  have hr2lt : ∀ c ∈ dropLeadingHashes (replaceNodeModules query.toList),
      isLineTerminator c = false :=
    fun c hc => hr1 c (mem_dropLeadingHashes _ c hc)
  have hr2head := head?_dropLeadingHashes (replaceNodeModules query.toList)
  have hr3sep : ∀ c ∈ dropFromSep (dropLeadingHashes (replaceNodeModules query.toList)),
      isSep c = false := mem_dropFromSep_no_lt _ hr2lt
  have hr3head : (dropFromSep (dropLeadingHashes (replaceNodeModules
      query.toList))).head? ≠ some '#' := by
    cases dropFromSep_head? (dropLeadingHashes (replaceNodeModules query.toList)) with
    | inl h0 => rw [h0]; simp
    | inr h0 => rw [h0]; exact hr2head
  refine ⟨?_, ?_, ?_⟩
  · show String.mk (dropFromSep (dropLeadingHashes (replaceNodeModules
        (cleanQueryPure query).toList))) = cleanQueryPure query
    have htl : (cleanQueryPure query).toList =
        dropFromSep (dropLeadingHashes (replaceNodeModules query.toList)) := rfl
    rw [htl]
    rw [show replaceNodeModules (dropFromSep (dropLeadingHashes (replaceNodeModules
        query.toList))) = dropFromSep (dropLeadingHashes (replaceNodeModules query.toList))
      from rnmGo_no_sep _ _ _ hr3sep]
    rw [dropLeadingHashes_of_head _ hr3head]
    rw [dropFromSep_of_no_sep _ hr3sep]
    rfl
  · exact hr3sep
  · exact hr3head

theorem clean_query_idempotent_without_line_terminators_instance :
    (∀ c ∈ ("src/node_modules/left-pad" : String).toList, isLineTerminator c = false) ∧
    cleanQueryPure (cleanQueryPure "src/node_modules/left-pad") =
      cleanQueryPure "src/node_modules/left-pad" :=
  ⟨by decide,
    (clean_query_idempotent_without_line_terminators "src/node_modules/left-pad"
      (by decide)).1⟩

example : cleanQueryPure "src/node_modules/left-pad" = "src#left-pad" := by decide
